import Mathlib

/-!
Shallow embedding of the arena allocator of this repository
(src/include/arena.h and the variants in src/unnamed/part_012, part_013),
with theorems checking the specification's claims about it.

Modelling conventions:
- pointers are `Nat` addresses; `uintptr_t` arithmetic is arithmetic mod `2^64`;
- C `ptrdiff_t`/`isize` values are `Int`; C integer division on them truncates
  toward zero, which is `Int.tdiv`;
- byte memory is a total map `Nat → Nat`; `memset`/`memmove`/`memcpy` are
  pointwise updates (the `memmove` model reads the source from the pre-call
  memory, which is exactly the overlap-safe semantics);
- a failed `Assert` (process trap) and the two OOM outcomes (NULL return,
  `longjmp` to the checkpoint) are distinct result constructors.

All code is compiled without `OOM_COMMIT`, `OOM_TRAP`, `OOM` or `LOGGING`
defined, matching the default build.
-/

namespace ArenaSpec

/-- The modulus of `uintptr_t` arithmetic: the 64-bit address space. -/
def UPTR : Nat := 2 ^ 64

/-- Byte memory: a map from addresses to byte values. -/
abbrev Mem := Nat → Nat

/-- C `memset(dst, v, n)`. -/
def memsetF (m : Mem) (dst v n : Nat) : Mem :=
  fun addr => if dst ≤ addr ∧ addr < dst + n then v else m addr

/-- C `memmove(dst, src, n)`: every destination byte receives the value the
corresponding source byte had before the call (overlap-safe). `memcpy` calls
of the source code are modelled the same way; where the source uses `memcpy`
its operands do not alias. -/
def memmoveF (m : Mem) (dst src n : Nat) : Mem :=
  fun addr => if dst ≤ addr ∧ addr < dst + n then m (src + (addr - dst)) else m addr

/-- `ArenaFlag` of src/include/arena.h (a bit mask; `_NO_INIT = 1`,
`_OOM_NULL = 2`). -/
structure ArenaFlag where
  mask : Nat
deriving DecidableEq

/-- `NO_INIT`: do not zero the allocated memory. -/
def NO_INIT : ArenaFlag := ⟨1⟩

/-- `OOM_NULL`: return NULL on OOM. -/
def OOM_NULL : ArenaFlag := ⟨2⟩

/-- `(ArenaFlag){0}`: zero-initialize, recover via the checkpoint on OOM. -/
def FLAGS0 : ArenaFlag := ⟨0⟩

/-- `struct Arena` of src/include/arena.h without `OOM_COMMIT`: frontier `beg`,
limit `end`, and whether the `jmpbuf` pointer is non-NULL. -/
structure Arena where
  beg : Nat
  end_ : Nat
  jmpbuf : Bool
deriving DecidableEq

/-- Outcome of `arena_alloc`: success (new arena, new memory, returned
address), NULL return on OOM, `longjmp` to the checkpoint on OOM, or a failed
`Assert` (process trap). The OOM and trap outcomes carry the arena as the call
leaves it. -/
inductive AllocResult where
  | ok (a : Arena) (m : Mem) (ret : Nat)
  | oomNull (a : Arena)
  | oomJmp (a : Arena)
  | trap (a : Arena)

/-- Whether an `arena_alloc` call returned successfully. -/
def isOK : AllocResult → Bool
  | .ok _ _ _ => true
  | _ => false

/-- The arena state carried by an `AllocResult`. -/
def arenaOf : AllocResult → Arena
  | .ok a _ _ => a
  | .oomNull a => a
  | .oomJmp a => a
  | .trap a => a

/-- The padding computation of `arena_alloc` (src/include/arena.h:237):
`-(uintptr_t)current & (align - 1)`. -/
def cPadding (current : Nat) (align : Int) : Nat :=
  ((UPTR - current % UPTR) % UPTR) &&& (align - 1).toNat

/-- `arena_alloc` (src/include/arena.h:231-264). Without `OOM_COMMIT` the
`while` runs its test once, the body being `goto handle_oom`, so it is an `if`.
The OOM test is `count >= (avail - padding) / size` with C (truncating)
division. -/
def arena_alloc (arena : Arena) (m : Mem) (size align count : Int)
    (flags : ArenaFlag) : AllocResult :=
  if count < 0 then .trap arena
  else if Int.tdiv ((((arena.end_ : Int) - (arena.beg : Int)))
          - (cPadding arena.beg align : Nat)) size ≤ count then
    if flags.mask &&& OOM_NULL.mask ≠ 0 then .oomNull arena
    else if arena.jmpbuf then .oomJmp arena
    else .trap arena
  else
    .ok { arena with
          beg := (((arena.beg : Int) + (cPadding arena.beg align : Nat)) + size * count).toNat }
      (if flags.mask &&& NO_INIT.mask ≠ 0 then m
       else memsetF m (arena.beg + cPadding arena.beg align) 0 (size * count).toNat)
      (arena.beg + cPadding arena.beg align)

/-- `arena_init` (src/include/arena.h:218-229) without `OOM_COMMIT`: `none` is
the failed `Assert(size > 0)`. A NULL `mem` is address 0, and then
`a.end = mem ? mem + size : 0` is 0 as well. -/
def arena_init (mem : Nat) (size : Int) : Option Arena :=
  if size ≤ 0 then none
  else some { beg := mem, end_ := if mem ≠ 0 then mem + size.toNat else 0, jmpbuf := false }

/-- The `ArenaOOM` macro (src/include/arena.h:161-166) at checkpoint
establishment: allocate `_JBLEN = 5` pointers (size 8, alignment 8) with
`OOM_NULL`, store the jmpbuf pointer, and run `setjmp` (which yields 0 at
establishment). The returned `Bool` is the value of the `ArenaOOM(...)`
expression: `true` means the jmpbuf allocation itself failed. -/
def ArenaOOM_establish (a : Arena) (m : Mem) : Arena × Mem × Bool :=
  match arena_alloc a m 8 8 5 OOM_NULL with
  | .ok a2 m2 _ => ({ a2 with jmpbuf := true }, m2, false)
  | _ => ({ a with jmpbuf := false }, m, true)

/-- One `arena_alloc` request. -/
structure Req where
  size : Int
  align : Int
  count : Int
  flags : ArenaFlag

/-- Run a sequence of `arena_alloc` calls inside a checkpoint scope: a
`longjmp` OOM transfers control back to the checkpoint (the run stops, the
`Bool` is `true`); a NULL return lets the caller continue; a trap aborts the
process (run stops, `false`). -/
def runUntilOOM (a : Arena) (m : Mem) : List Req → Arena × Mem × Bool
  | [] => (a, m, false)
  | r :: rs =>
    match arena_alloc a m r.size r.align r.count r.flags with
    | .ok a2 m2 _ => runUntilOOM a2 m2 rs
    | .oomNull a2 => runUntilOOM a2 m rs
    | .oomJmp a2 => (a2, m, true)
    | .trap a2 => (a2, m, false)

/-- Run a sequence of `arena_alloc` calls, continuing after failures (every
failure path leaves the arena as the result carries it). -/
def runList (a : Arena) (m : Mem) : List Req → Arena × Mem
  | [] => (a, m)
  | r :: rs =>
    match arena_alloc a m r.size r.align r.count r.flags with
    | .ok a2 m2 _ => runList a2 m2 rs
    | .oomNull a2 => runList a2 m rs
    | .oomJmp a2 => runList a2 m rs
    | .trap a2 => runList a2 m rs

/-- The slice header manipulated by `slice_grow` and `Push`
(`{ data, len, cap }`, src/include/arena.h:274-279). -/
structure SliceMeta where
  data : Nat
  len : Int
  cap : Int
deriving DecidableEq

/-- `slice_grow` (src/include/arena.h:274-302). `grow = MAX_ALIGN`, which is
16 (`_Alignof(max_align_t)` on x86-64). The in-place test
`(uintptr_t)slicemeta.data == (uintptr_t)arena->beg - size * slicemeta.cap`
is equality of `uintptr_t` values, i.e. mod `2^64`. `none` means the inner
`arena_alloc` did not return (longjmp or trap). -/
def slice_grow (s : SliceMeta) (size align : Int) (arena : Arena) (m : Mem) :
    Option (SliceMeta × Arena × Mem) :=
  if s.cap = 0 then
    match arena_alloc arena m size align (s.len + 16) NO_INIT with
    | .ok a2 m2 ret =>
        some ({ data := ret, len := s.len, cap := s.len + 16 }, a2,
          memmoveF m2 ret s.data (size * s.len).toNat)
    | _ => none
  else if ((s.data : Int)).emod UPTR = (((arena.beg : Int) - size * s.cap)).emod UPTR then
    match arena_alloc arena m size 1 16 NO_INIT with
    | .ok a2 m2 _ => some ({ s with cap := s.cap + 16 }, a2, m2)
    | _ => none
  else
    match arena_alloc arena m size align (s.cap + Int.tdiv s.cap 2) NO_INIT with
    | .ok a2 m2 ret =>
        some ({ data := ret, len := s.len, cap := s.cap + Int.tdiv s.cap 2 }, a2,
          memmoveF m2 ret s.data (size * s.len).toNat)
    | _ => none

/-- `arena_alloc` of the src/unnamed/part_012 variant (lines 248-285): the
same allocation logic as src/include/arena.h, but with `Assert(size > 0)` and
`Assert(count > 0)` up front. -/
def arena_alloc12 (arena : Arena) (m : Mem) (size align count : Int)
    (flags : ArenaFlag) : AllocResult :=
  if size ≤ 0 ∨ count ≤ 0 then .trap arena
  else arena_alloc arena m size align count flags

/-- `slice_grow` of the src/unnamed/part_012 variant (lines 295-320):
`grow = 16`; the zero-capacity and in-place branches match
src/include/arena.h, the relocation branch grows by
`Max(slicemeta.cap / 2, grow)` instead of `slicemeta.cap / 2`. -/
def slice_grow12 (s : SliceMeta) (size align : Int) (arena : Arena) (m : Mem) :
    Option (SliceMeta × Arena × Mem) :=
  if s.cap = 0 then
    match arena_alloc12 arena m size align (s.len + 16) NO_INIT with
    | .ok a2 m2 ret =>
        some ({ data := ret, len := s.len, cap := s.len + 16 }, a2,
          memmoveF m2 ret s.data (size * s.len).toNat)
    | _ => none
  else if ((s.data : Int)).emod UPTR = (((arena.beg : Int) - size * s.cap)).emod UPTR then
    match arena_alloc12 arena m size 1 16 NO_INIT with
    | .ok a2 m2 _ => some ({ s with cap := s.cap + 16 }, a2, m2)
    | _ => none
  else
    match arena_alloc12 arena m size align (s.cap + max (Int.tdiv s.cap 2) 16) NO_INIT with
    | .ok a2 m2 ret =>
        some ({ data := ret, len := s.len, cap := s.cap + max (Int.tdiv s.cap 2) 16 }, a2,
          memmoveF m2 ret s.data (size * s.len).toNat)
    | _ => none

/-- The `Push` macro (src/include/arena.h:196-206): assert slice validity,
call `slice_grow` when `len >= cap`, then return the address of slot `len`
(`s_->data + s_->len++`, scaled pointer arithmetic) and increment `len`.
`none` covers a failed assert as well as an OOM inside `slice_grow`. -/
def push (s : SliceMeta) (size align : Int) (arena : Arena) (m : Mem) :
    Option (SliceMeta × Arena × Mem × Nat) :=
  if s.len < 0 ∨ s.cap < 0 ∨ (s.len = 0 ∧ s.data ≠ 0) then none
  else if s.cap ≤ s.len then
    match slice_grow s size align arena m with
    | none => none
    | some (s2, a2, m2) =>
        some ({ s2 with len := s2.len + 1 }, a2, m2,
          ((s2.data : Int) + size * s2.len).toNat)
  else some ({ s with len := s.len + 1 }, arena, m, ((s.data : Int) + size * s.len).toNat)

/-- `N` successive `Push` operations through the same arena, keeping the
slot addresses only implicitly. -/
def pushN : Nat → SliceMeta → Int → Int → Arena → Mem → Option (SliceMeta × Arena × Mem)
  | 0, s, _, _, arena, m => some (s, arena, m)
  | n + 1, s, size, align, arena, m =>
    match push s size align arena m with
    | some (s2, a2, m2, _) => pushN n s2 size align a2 m2
    | none => none

/-- `struct astr` (src/include/arena.h:338-341). -/
structure Astr where
  data : Nat
  len : Int
deriving DecidableEq

/-- `astrclone` (src/include/arena.h:349-358). `New(arena, char, s.len,
NO_INIT)` is `arena_alloc(arena, 1, 1, s.len, NO_INIT)`. -/
def astrclone (arena : Arena) (m : Mem) (s : Astr) : Option (Astr × Arena × Mem) :=
  if s.len = 0 ∨ (s.data : Int) + s.len = (arena.beg : Int) then some (s, arena, m)
  else
    match arena_alloc arena m 1 1 s.len NO_INIT with
    | .ok a2 m2 ret =>
        some ({ data := ret, len := s.len }, a2, memmoveF m2 ret s.data s.len.toNat)
    | _ => none

/-- The final step of `astrconcat` (src/include/arena.h:372):
`ret.len += astrclone(arena, tail).len` with `ret` already at the arena tip. -/
def astrconcat_append (ret0 : Astr) (a1 : Arena) (m1 : Mem) (tail : Astr) :
    Option (Astr × Arena × Mem) :=
  match astrclone a1 m1 tail with
  | none => none
  | some (t2, a2, m2) => some ({ ret0 with len := ret0.len + t2.len }, a2, m2)

/-- `astrconcat` (src/include/arena.h:360-374): empty heads defer to the tail
(returned directly when it already ends at the tip, cloned otherwise); a head
not at the tip is cloned there first; then the tail is cloned right behind it
and the head's length extended. -/
def astrconcat (arena : Arena) (m : Mem) (head tail : Astr) :
    Option (Astr × Arena × Mem) :=
  if head.len = 0 then
    if tail.len ≠ 0 ∧ (tail.data : Int) + tail.len = (arena.beg : Int) then
      some (tail, arena, m)
    else astrclone arena m tail
  else if (head.data : Int) + head.len ≠ (arena.beg : Int) then
    match astrclone arena m head with
    | none => none
    | some (ret0, a1, m1) => astrconcat_append ret0 a1 m1 tail
  else astrconcat_append head arena m tail

/-- The byte content of `n` bytes starting at address `d` in memory `m`. -/
def contentN (m : Mem) (d n : Nat) : List Nat :=
  (List.range n).map fun i => m (d + i)

/-- The byte content of an `astr` view. -/
def contA (m : Mem) (s : Astr) : List Nat := contentN m s.data s.len.toNat

/-- `astrcmp` (src/include/arena.h:407-412): length check, then `memcmp` on
the contents. -/
def astrcmp (m : Mem) (x y : Astr) : Bool :=
  if x.len ≠ y.len then false
  else x.len == 0 || decide (∀ i < x.len.toNat, m (x.data + i) = m (y.data + i))

/-- `struct Arena` of the src/unnamed/part_013 variant. `beg` is the value of
`*arena->beg`; when the arena is a scratch (`parent != NULL`), `parentBeg` is
the value of `*arena->parent->beg` at call time. -/
structure Arena13 where
  beg : Nat
  end_ : Nat
  hasJmp : Bool
  parentBeg : Option Nat
deriving DecidableEq

/-- Outcome of the part_013 `arena_alloc`: success, NULL return, or longjmp. -/
inductive Alloc13Result where
  | ok (a : Arena13) (m : Mem) (ret : Nat)
  | null (a : Arena13)
  | jmp (a : Arena13)

/-- The arena state carried by an `Alloc13Result`. -/
def arenaOf13 : Alloc13Result → Arena13
  | .ok a _ _ => a
  | .null a => a
  | .jmp a => a

/-- Whether a part_013 allocation returned successfully. -/
def isOK13 : Alloc13Result → Bool
  | .ok _ _ _ => true
  | _ => false

/-- part_013 flag bits: `SOFTFAIL = 1 << 0`, `NOINIT = 1 << 1`. -/
def SOFTFAIL : Nat := 1

/-- part_013 `NOINIT` bit. -/
def NOINIT13 : Nat := 2

/-- The `oomjmp` tail of the part_013 `arena_alloc`:
`if (flags & SOFTFAIL || !arena->oomjmp) return NULL; longjmp(...)`. -/
def alloc13_oom (arena : Arena13) (flags : Nat) : Alloc13Result :=
  if flags &&& SOFTFAIL ≠ 0 ∨ ¬arena.hasJmp then Alloc13Result.null arena
  else Alloc13Result.jmp arena

/-- The bump body of the part_013 `arena_alloc`, after the scratch re-sync.
The source computes `is_forward`, `avail`, `padding`, `offset` and `ret` with
ternaries over one shared control flow; here the two directions are spelled
out as the two branches of the `is_forward` test. The backward padding is
`(uintptr_t)*arena->beg & (align - 1)`. -/
def alloc13_body (arena : Arena13) (m : Mem) (size align count : Int) (flags : Nat) :
    Alloc13Result :=
  if arena.beg < arena.end_ then
    if Int.tdiv ((((arena.end_ : Int) - (arena.beg : Int)))
        - (cPadding arena.beg align : Nat)) size < count then alloc13_oom arena flags
    else
      Alloc13Result.ok
        { arena with
          beg := (((arena.beg : Int) + ((cPadding arena.beg align : Nat) + size * count)).toNat) }
        (if flags &&& NOINIT13 ≠ 0 then m
         else memsetF m
           (((((arena.beg : Int) + ((cPadding arena.beg align : Nat) + size * count)).toNat : Nat)
              : Int) - size * count).toNat 0 (size * count).toNat)
        (((((arena.beg : Int) + ((cPadding arena.beg align : Nat) + size * count)).toNat : Nat)
            : Int) - size * count).toNat
  else
    if Int.tdiv ((((arena.beg : Int) - (arena.end_ : Int)))
        - (((arena.beg % UPTR) &&& (align - 1).toNat : Nat) : Int)) size < count then
      alloc13_oom arena flags
    else
      Alloc13Result.ok
        { arena with
          beg := (((arena.beg : Int)
            - ((((arena.beg % UPTR) &&& (align - 1).toNat : Nat) : Int) + size * count)).toNat) }
        (if flags &&& NOINIT13 ≠ 0 then m
         else memsetF m
           (((arena.beg : Int)
             - ((((arena.beg % UPTR) &&& (align - 1).toNat : Nat) : Int) + size * count)).toNat)
           0 (size * count).toNat)
        (((arena.beg : Int)
          - ((((arena.beg % UPTR) &&& (align - 1).toNat : Nat) : Int) + size * count)).toNat)

/-- `arena_alloc` of src/unnamed/part_013 (lines 136-171): for a scratch, the
limit is first re-synchronized to the parent's live frontier (`arena->end =
*arena->parent->beg`) when the scratch frontier is still above it, otherwise
the call goes straight to the OOM path; then the direction-aware bump of
`alloc13_body` with OOM test `count > (avail - padding) / size` (C truncating
division). -/
def arena_alloc13 (a0 : Arena13) (m : Mem) (size align count : Int) (flags : Nat) :
    Alloc13Result :=
  match a0.parentBeg with
  | some pb =>
    if pb < a0.beg then alloc13_body { a0 with end_ := pb } m size align count flags
    else alloc13_oom a0 flags
  | none => alloc13_body a0 m size align count flags

/-- `getscratch` (src/unnamed/part_013:125-134): the scratch of a non-scratch
arena starts its frontier at the parent's limit, its limit at the parent's
frontier, and remembers the parent (in the C code `scratch.beg = &a->end`
stores the scratch frontier inside the parent's `end` field; the model carries
its value). -/
def getscratch (a : Arena13) : Arena13 :=
  if a.parentBeg.isSome then a
  else { beg := a.end_, end_ := a.beg, hasJmp := a.hasJmp, parentBeg := some a.beg }

/-- Run a sequence of part_013 `arena_alloc` calls, continuing after failures
(every failure path leaves the frontier as the result carries it). -/
def runList13 (a : Arena13) (m : Mem) : List Req → Arena13 × Mem
  | [] => (a, m)
  | r :: rs =>
    match arena_alloc13 a m r.size r.align r.count r.flags.mask with
    | .ok a2 m2 _ => runList13 a2 m2 rs
    | .null a2 => runList13 a2 m rs
    | .jmp a2 => runList13 a2 m rs

/-- First index at which `needle` occurs in `hay` (C `memmem`; `none` is a
NULL result). -/
def memmemIdx (hay needle : List Nat) : Option Nat :=
  (List.range (hay.length + 1)).find? fun j => (hay.drop j).take needle.length == needle

/-- `_astr_split` (src/unnamed/part_012:435-441) on the value level: the
string is its byte list, `slice = {s.data + pos, s.len - pos}` is `s.drop
pos`, a token `{slice.data, tokenLen}` is `slice.take tokenLen`, and
`res - slice.data` is the `memmem` index. Returns the token and the updated
`*pos` (`*pos += token.len + sep.len`). -/
def astrSplitStep (s sep : List Nat) (pos : Nat) : List Nat × Nat :=
  let slice := s.drop pos
  let tokenLen :=
    match memmemIdx slice sep with
    | some j => if j ≠ 0 then j else slice.length
    | none => slice.length
  (slice.take tokenLen, pos + tokenLen + sep.length)

/-- The `astr_split` iteration (src/unnamed/part_012:443-449): while
`it.pos < it.input.len`, emit the next token (`it.token.data` is non-NULL
whenever the string's data pointer is). `fuel` bounds the iteration count;
`s.length + 1` always suffices because `pos` strictly increases. -/
def astrSplitAll (fuel : Nat) (s sep : List Nat) (pos : Nat) : List (List Nat) :=
  match fuel with
  | 0 => []
  | fuel2 + 1 =>
    if pos < s.length then
      let st := astrSplitStep s sep pos
      st.1 :: astrSplitAll fuel2 s sep st.2
    else []

/-- The all-zero memory, used for concrete runs. -/
def mem0 : Mem := fun _ => 0

/-- Concrete arena for the C1 witness: frontier 5, limit 100. -/
def aC1 : Arena := ⟨5, 100, true⟩

/-- Concrete arena for the C2 counterexample: exactly 16 free bytes. -/
def aC2 : Arena := ⟨0, 16, true⟩

/-- Concrete arena for the C3 counterexample, before `ArenaOOM`. -/
def aC3 : Arena := ⟨0, 48, false⟩

/-- Requests for the C3 counterexample: one successful 4-byte allocation, then
an allocation that cannot fit. -/
def reqsC3 : List Req := [⟨1, 1, 4, FLAGS0⟩, ⟨1, 1, 100, FLAGS0⟩]

/-- Concrete slice for the C4 witness: 4 one-byte slots at 96, 2 used. -/
def sC4 : SliceMeta := ⟨96, 2, 4⟩

/-- Concrete arena for the C4 witness: frontier 100, so `sC4` is at the tip. -/
def aC4 : Arena := ⟨100, 200, true⟩

/-- Concrete slice for the C5 counterexample: 16 one-byte slots at 100. -/
def sC5 : SliceMeta := ⟨100, 16, 16⟩

/-- Concrete arena for the C5 counterexample: frontier 200, so `sC5` is not at
the tip. -/
def aC5 : Arena := ⟨200, 300, true⟩

/-- Concrete arena for the C6 counterexample: frontier 20. -/
def aC6 : Arena := ⟨20, 100, true⟩

/-- Memory for the C6 counterexample: bytes 1, 2 at addresses 18, 19. -/
def mC6 : Mem := fun addr => if addr = 18 then 1 else if addr = 19 then 2 else 0

/-- The string "ab" stored at [18, 20), ending exactly at `aC6`'s frontier. -/
def sAB : Astr := ⟨18, 2⟩

/-- Concrete arena for the C6 witness. -/
def aC6w : Arena := ⟨16, 40, true⟩

/-- Memory for the C6 witness: A = [1, 2] at [10, 12), B = [3] at [14, 15). -/
def mC6w : Mem := fun addr =>
  if addr = 10 then 1 else if addr = 11 then 2 else if addr = 14 then 3 else 0

/-- The C6 witness head string. -/
def sAw : Astr := ⟨10, 2⟩

/-- The C6 witness tail string. -/
def sBw : Astr := ⟨14, 1⟩

/-- Concrete scratch for the C7 counterexample: frontier 13 above the parent
frontier 10, with an alignment-8 zero-count request pending. -/
def scrC7 : Arena13 := ⟨13, 999, true, some 10⟩

/-- Concrete scratch for the C7 witness. -/
def scrC7w : Arena13 := ⟨50, 7, true, some 10⟩

/-- Requests for the C8 witness (forward variant). -/
def reqsC8 : List Req := [⟨8, 8, 1, FLAGS0⟩, ⟨1, 1, 100, FLAGS0⟩]

/-- Concrete arena for the C8 witness. -/
def aC8 : Arena := ⟨0, 64, true⟩

/-- Concrete scratch for the C8 witness (backward variant). -/
def scrC8 : Arena13 := ⟨64, 3, true, some 16⟩

/-- The byte string "a,b,,c". -/
def strAC : List Nat := [97, 44, 98, 44, 44, 99]

/-- The separator ",". -/
def sepComma : List Nat := [44]

/-! ## Arithmetic helpers: C truncating division and the padding mask -/

lemma lt_tdiv_iff {M s c : Int} (hs : 0 < s) (hc : 0 ≤ c) :
    c < Int.tdiv M s ↔ s * (c + 1) ≤ M := by
  lift s to ℕ using hs.le with sn
  lift c to ℕ using hc with cn
  have hsn : 0 < sn := by exact_mod_cast hs
  cases M with
  | ofNat n =>
    have hdiv : Int.tdiv (Int.ofNat n) (sn : Int) = ((n / sn : Nat) : Int) := rfl
    rw [hdiv, show (Int.ofNat n) = ((n : Nat) : Int) from rfl]
    have hnat : cn < n / sn ↔ sn * (cn + 1) ≤ n := by
      rw [Nat.lt_iff_add_one_le, Nat.le_div_iff_mul_le hsn, Nat.mul_comm]
    constructor
    · intro h
      have h2 : sn * (cn + 1) ≤ n := hnat.mp (by exact_mod_cast h)
      exact_mod_cast h2
    · intro h
      have h2 : sn * (cn + 1) ≤ n := by exact_mod_cast h
      exact_mod_cast hnat.mpr h2
  | negSucc n =>
    have hdiv : Int.tdiv (Int.negSucc n) (sn : Int) = -(((n + 1) / sn : Nat) : Int) := rfl
    rw [hdiv, Int.negSucc_eq]
    constructor
    · intro h
      exfalso
      have h0 : (0 : Int) ≤ ((n + 1) / sn : Nat) := Int.ofNat_nonneg _
      omega
    · intro h
      exfalso
      have h0 : (0 : Int) < (sn : Int) * (cn + 1) := by positivity
      omega

lemma tdiv_le_iff {M s c : Int} (hs : 0 < s) (hc : 0 ≤ c) :
    Int.tdiv M s ≤ c ↔ M < s * (c + 1) := by
  constructor
  · intro h
    by_contra h2
    push_neg at h2
    exact absurd ((lt_tdiv_iff hs hc).mpr h2) (by omega)
  · intro h
    by_contra h2
    push_neg at h2
    exact absurd ((lt_tdiv_iff hs hc).mp h2) (by omega)

lemma UPTR_pos : 0 < UPTR := by norm_num [UPTR]

lemma cPadding_one (c : Nat) : cPadding c 1 = 0 := by
  simp [cPadding, Nat.and_zero]

lemma cPadding_addr_zero (align : Int) : cPadding 0 align = 0 := by
  simp [cPadding, Nat.mod_self, Nat.zero_and]

lemma two_pow_int_toNat (k : Nat) : ((2 : Int) ^ k - 1).toNat = 2 ^ k - 1 := by
  have h2 : ((2 : Int) ^ k) = ((2 ^ k : Nat) : Int) := by push_cast; ring
  have h3 : 1 ≤ 2 ^ k := Nat.one_le_two_pow
  rw [h2]
  omega

lemma cPadding_pow (c k : Nat) :
    cPadding c ((2 : Int) ^ k) = (UPTR - c % UPTR) % UPTR % 2 ^ k := by
  unfold cPadding
  rw [two_pow_int_toNat, Nat.and_pow_two_sub_one_eq_mod]

lemma cPadding_pow_lt (c k : Nat) : cPadding c ((2 : Int) ^ k) < 2 ^ k := by
  rw [cPadding_pow]
  exact Nat.mod_lt _ (Nat.two_pow_pos k)

lemma cPadding_aligned (c : Nat) {k : Nat} (hk : k ≤ 64) :
    (c + cPadding c ((2 : Int) ^ k)) % 2 ^ k = 0 := by
  rw [cPadding_pow]
  have hdvd2 : (2 ^ k : Nat) ∣ UPTR := by
    simpa [UPTR] using pow_dvd_pow 2 hk
  rw [Nat.mod_mod_of_dvd _ hdvd2]
  have h1 : (c + (UPTR - c % UPTR) % 2 ^ k) % 2 ^ k = (c + (UPTR - c % UPTR)) % 2 ^ k :=
    Nat.ModEq.add_left c (Nat.mod_modEq _ _)
  rw [h1]
  have h4 : c % UPTR < UPTR := Nat.mod_lt _ UPTR_pos
  have h3 := Nat.div_add_mod c UPTR
  have h2 : c + (UPTR - c % UPTR) = UPTR * (c / UPTR) + UPTR := by omega
  rw [h2]
  exact Nat.mod_eq_zero_of_dvd (dvd_add (hdvd2.mul_right _) hdvd2)

/-! ## Memory and content helpers -/

lemma memmoveF_in (m : Mem) (dst src n i : Nat) (hi : i < n) :
    memmoveF m dst src n (dst + i) = m (src + i) := by
  unfold memmoveF
  rw [if_pos ⟨Nat.le_add_right _ _, by omega⟩]
  congr 1
  omega

lemma memmoveF_out (m : Mem) (dst src n addr : Nat)
    (h : addr < dst ∨ dst + n ≤ addr) :
    memmoveF m dst src n addr = m addr := by
  unfold memmoveF
  rw [if_neg (by omega)]

lemma memsetF_in (m : Mem) (dst v n i : Nat) (hi : i < n) :
    memsetF m dst v n (dst + i) = v := by
  unfold memsetF
  rw [if_pos ⟨Nat.le_add_right _ _, by omega⟩]

lemma contentN_length (m : Mem) (d n : Nat) : (contentN m d n).length = n := by
  simp [contentN]

lemma contentN_congr {m1 m2 : Mem} {d e : Nat} (n : Nat)
    (h : ∀ i, i < n → m1 (d + i) = m2 (e + i)) :
    contentN m1 d n = contentN m2 e n := by
  unfold contentN
  apply List.map_congr_left
  intro i hi
  exact h i (List.mem_range.mp hi)

lemma contentN_split (m : Mem) (d x y : Nat) :
    contentN m d (x + y) = contentN m d x ++ contentN m (d + x) y := by
  unfold contentN
  rw [List.range_add, List.map_append, List.map_map]
  congr 1
  apply List.map_congr_left
  intro i _
  simp [Function.comp, Nat.add_assoc]

lemma contentN_memmove (m : Mem) (dst src n : Nat) :
    contentN (memmoveF m dst src n) dst n = contentN m src n :=
  contentN_congr n fun i hi => memmoveF_in m dst src n i hi

lemma contentN_pointwise {m1 m2 : Mem} {d e n : Nat}
    (h : contentN m1 d n = contentN m2 e n) :
    ∀ i, i < n → m1 (d + i) = m2 (e + i) := by
  intro i hi
  have h1 : (contentN m1 d n)[i]? = some (m1 (d + i)) := by
    simp [contentN, List.getElem?_map, List.getElem?_range hi]
  have h2 : (contentN m2 e n)[i]? = some (m2 (e + i)) := by
    simp [contentN, List.getElem?_map, List.getElem?_range hi]
  rw [h, h2] at h1
  exact (Option.some_inj.mp h1).symm

/-! ## Destructors for successful and failing allocations -/

lemma arena_alloc_ok {arena : Arena} {m : Mem} {size align count : Int} {flags : ArenaFlag}
    {a2 : Arena} {m2 : Mem} {ret : Nat}
    (h : arena_alloc arena m size align count flags = .ok a2 m2 ret) :
    0 ≤ count
    ∧ ¬(Int.tdiv (((arena.end_ : Int) - arena.beg) - (cPadding arena.beg align : Nat)) size
        ≤ count)
    ∧ ret = arena.beg + cPadding arena.beg align
    ∧ a2.beg = (((arena.beg : Int) + (cPadding arena.beg align : Nat)) + size * count).toNat
    ∧ a2.end_ = arena.end_ ∧ a2.jmpbuf = arena.jmpbuf
    ∧ m2 = (if flags.mask &&& NO_INIT.mask ≠ 0 then m
            else memsetF m (arena.beg + cPadding arena.beg align) 0 (size * count).toNat) := by
  unfold arena_alloc at h
  split_ifs at h with h1 h2 h3 h4 h5 <;>
    first
      | exact AllocResult.noConfusion h
      | (injection h with ha hm hr
         refine ⟨by omega, by assumption, hr.symm, by rw [← ha], by rw [← ha], by rw [← ha], ?_⟩
         rw [← hm]
         first
           | rw [if_pos (by assumption)]
           | rw [if_neg (by assumption)])

lemma arena_alloc_oomJmp_eq {arena : Arena} {m : Mem} {size align count : Int}
    {flags : ArenaFlag} {a2 : Arena}
    (h : arena_alloc arena m size align count flags = .oomJmp a2) : a2 = arena := by
  simp only [arena_alloc] at h
  split_ifs at h <;>
    first
      | exact AllocResult.noConfusion h
      | (injection h with h5; exact h5.symm)

lemma arena_alloc_oomNull_eq {arena : Arena} {m : Mem} {size align count : Int}
    {flags : ArenaFlag} {a2 : Arena}
    (h : arena_alloc arena m size align count flags = .oomNull a2) : a2 = arena := by
  simp only [arena_alloc] at h
  split_ifs at h <;>
    first
      | exact AllocResult.noConfusion h
      | (injection h with h5; exact h5.symm)

lemma arena_alloc_trap_eq {arena : Arena} {m : Mem} {size align count : Int}
    {flags : ArenaFlag} {a2 : Arena}
    (h : arena_alloc arena m size align count flags = .trap a2) : a2 = arena := by
  simp only [arena_alloc] at h
  split_ifs at h <;>
    first
      | exact AllocResult.noConfusion h
      | (injection h with h5; exact h5.symm)

/-! ## Claim theorems -/

/-- C1: every call `arena_alloc(arena, size, align, count, flags)` with a
power-of-two alignment that returns successfully yields an address that is a
multiple of the requested alignment, with `address + size*count` at most the
arena's limit `arena->end` as it was at call time. -/
theorem c1_alloc_aligned_and_bounded
    (arena : Arena) (m : Mem) (size count : Int) (k : Nat) (flags : ArenaFlag)
    (a2 : Arena) (m2 : Mem) (ret : Nat)
    (hk : k ≤ 64) (hsize : 0 < size) (hcount : 0 ≤ count)
    (h : arena_alloc arena m size ((2 : Int) ^ k) count flags = .ok a2 m2 ret) :
    ret % 2 ^ k = 0 ∧ (ret : Int) + size * count ≤ (arena.end_ : Int) := by
  obtain ⟨h0, hfail, hret, hbeg, -, -, -⟩ := arena_alloc_ok h
  constructor
  · rw [hret]
    exact cPadding_aligned arena.beg hk
  · have hlt : count < Int.tdiv (((arena.end_ : Int) - arena.beg)
        - (cPadding arena.beg ((2 : Int) ^ k) : Nat)) size := not_le.mp hfail
    have hle := (lt_tdiv_iff hsize hcount).mp hlt
    have hretInt : (ret : Int)
        = (arena.beg : Int) + (cPadding arena.beg ((2 : Int) ^ k) : Nat) := by
      rw [hret]
      push_cast
      ring
    have hexp : size * (count + 1) = size * count + size := by ring
    rw [hretInt]
    linarith [hle, hexp, hsize]

/-- C1 witness: a concrete successful allocation (frontier 5, limit 100,
size 8, alignment `2^3`, count 2) returns address 8, a multiple of 8, with
`8 + 8*2 ≤ 100`. -/
theorem c1_witness : (8 : Nat) % 2 ^ 3 = 0 ∧ ((8 : Nat) : Int) + 8 * 2 ≤ ((100 : Nat) : Int) := by
  have e : ((2 : Int) ^ 3) = 8 := by norm_num
  have h : arena_alloc aC1 mem0 8 ((2 : Int) ^ 3) 2 NO_INIT = .ok ⟨24, 100, true⟩ mem0 8 := by
    rw [e]
    rfl
  exact c1_alloc_aligned_and_bounded aC1 mem0 8 2 3 NO_INIT ⟨24, 100, true⟩ mem0 8
    (by norm_num) (by norm_num) (by norm_num) h

/-- C2 counterexample: with 16 free bytes (frontier 0, limit 16), size 8,
alignment 1, count 2, we have `padding + size*count = 16`, which does not
exceed the remaining capacity, yet the call takes the OOM path — the test
`count >= (avail - padding) / size` fires at `2 >= 2`. The claim's failure
condition is therefore wrong on this input. -/
theorem c2_counterexample :
    isOK (arena_alloc aC2 mem0 8 1 2 FLAGS0) = false
    ∧ ((cPadding aC2.beg 1 : Nat) : Int) + 8 * 2 ≤ (aC2.end_ : Int) - (aC2.beg : Int) := by
  constructor
  · rfl
  · decide

/-- C2 (amended): `arena_alloc` takes the OOM path exactly when
`padding + size*(count+1)` exceeds the remaining capacity `end - beg` — one
extra element of slack is required, so a request that exactly fills the
remainder also fails, because the test is `count >= (avail - padding)/size`
with truncating division. The padding rounds the frontier up to the
(power-of-two) alignment. On success the call advances the frontier by
exactly `padding + size*count`, returns the aligned address `beg + padding`,
leaves the limit unchanged, and zero-fills the returned bytes unless the
`NO_INIT` flag is passed (with `NO_INIT` memory is untouched). -/
theorem c2_alloc_failure_condition
    (arena : Arena) (m : Mem) (size count : Int) (k : Nat) (flags : ArenaFlag)
    (hk : k ≤ 64) (hsize : 0 < size) (hcount : 0 ≤ count) :
    (isOK (arena_alloc arena m size ((2 : Int) ^ k) count flags) = false
      ↔ (arena.end_ : Int) - arena.beg
          < (cPadding arena.beg ((2 : Int) ^ k) : Nat) + size * (count + 1))
    ∧ (arena.beg + cPadding arena.beg ((2 : Int) ^ k)) % 2 ^ k = 0
    ∧ (∀ a2 m2 ret, arena_alloc arena m size ((2 : Int) ^ k) count flags = .ok a2 m2 ret →
        ret = arena.beg + cPadding arena.beg ((2 : Int) ^ k)
        ∧ (a2.beg : Int) = ((arena.beg : Int) + (cPadding arena.beg ((2 : Int) ^ k) : Nat))
            + size * count
        ∧ a2.end_ = arena.end_
        ∧ (flags.mask &&& NO_INIT.mask = 0 →
            ∀ i, i < (size * count).toNat → m2 (ret + i) = 0)
        ∧ (flags.mask &&& NO_INIT.mask ≠ 0 → m2 = m)) := by
  refine ⟨?_, cPadding_aligned arena.beg hk, ?_⟩
  · unfold arena_alloc
    split_ifs with h1 h2 h3 h4 h5
    · exact absurd h1 (by omega)
    · simp only [isOK]
      have h6 := (tdiv_le_iff hsize hcount).mp h2
      constructor
      · intro
        omega
      · intro
        trivial
    · simp only [isOK]
      have h6 := (tdiv_le_iff hsize hcount).mp h2
      constructor
      · intro
        omega
      · intro
        trivial
    · simp only [isOK]
      have h6 := (tdiv_le_iff hsize hcount).mp h2
      constructor
      · intro
        omega
      · intro
        trivial
    · simp only [isOK]
      have h6 := (lt_tdiv_iff hsize hcount).mp (not_le.mp h2)
      constructor
      · intro hfalse
        exact absurd hfalse (by simp)
      · intro hcontra
        exfalso
        have : size * (count + 1) = size * count + size := by ring
        omega
    · simp only [isOK]
      have h6 := (lt_tdiv_iff hsize hcount).mp (not_le.mp h2)
      constructor
      · intro hfalse
        exact absurd hfalse (by simp)
      · intro hcontra
        exfalso
        have : size * (count + 1) = size * count + size := by ring
        omega
  · intro a2 m2 ret h
    obtain ⟨h0, hfail, hret, hbeg, hend, -, hm2⟩ := arena_alloc_ok h
    have hnn : (0 : Int) ≤ ((arena.beg : Int)
        + (cPadding arena.beg ((2 : Int) ^ k) : Nat)) + size * count := by
      have := mul_nonneg hsize.le hcount
      positivity
    refine ⟨hret, ?_, hend, ?_, ?_⟩
    · rw [hbeg]
      exact Int.toNat_of_nonneg hnn
    · intro hmask i hi
      rw [hm2, if_neg (by omega), hret]
      exact memsetF_in m _ 0 _ i hi
    · intro hmask
      rw [hm2, if_pos hmask]

/-- C2 witness: the amended failure condition, instantiated at the concrete
exact-fit input of the counterexample (16 free bytes, size 8, count 2): the
call fails because `0 + 8*(2+1) > 16`. -/
theorem c2_witness : isOK (arena_alloc aC2 mem0 8 ((2 : Int) ^ 0) 2 FLAGS0) = false :=
  (c2_alloc_failure_condition aC2 mem0 8 2 0 FLAGS0 (by norm_num) (by norm_num)
      (by norm_num)).1.mpr (by decide)

/-- C10: `arena_init(NULL, size)` (with `size > 0`, which its `Assert`
requires) yields an arena whose `beg` and `end` are both null; every
`arena_alloc` with a nonnegative count on such an arena takes the OOM path —
NULL when `OOM_NULL` is set, otherwise longjmp when a checkpoint exists,
otherwise the `Assert(arena->jmpbuf ...)` trap — so no allocation on it ever
succeeds; and `ArenaOOM` on a null-backed arena reports failure immediately
because its own jmpbuf allocation returns NULL. -/
theorem c10_null_arena :
    (∀ size : Int, 0 < size → arena_init 0 size = some ⟨0, 0, false⟩)
    ∧ (∀ (jb : Bool) (m : Mem) (size align count : Int) (flags : ArenaFlag), 0 ≤ count →
        arena_alloc ⟨0, 0, jb⟩ m size align count flags
          = (if flags.mask &&& OOM_NULL.mask ≠ 0 then .oomNull ⟨0, 0, jb⟩
             else if jb then .oomJmp ⟨0, 0, jb⟩ else .trap ⟨0, 0, jb⟩))
    ∧ (∀ m : Mem, (ArenaOOM_establish ⟨0, 0, false⟩ m).2.2 = true
        ∧ (ArenaOOM_establish ⟨0, 0, true⟩ m).2.2 = true) := by
  refine ⟨?_, ?_, ?_⟩
  · intro size hs
    unfold arena_init
    rw [if_neg (by omega)]
    simp
  · intro jb m size align count flags hc
    unfold arena_alloc
    rw [if_neg (by omega), if_pos]
    have hp : cPadding (Arena.beg ⟨0, 0, jb⟩) align = 0 := cPadding_addr_zero align
    rw [hp]
    simp [Int.zero_tdiv]
    omega
  · intro m
    exact ⟨rfl, rfl⟩

/-- C10 witness: the concrete null-backed arena rejects a concrete
allocation and `ArenaOOM` reports failure at once. -/
theorem c10_witness :
    arena_init 0 8 = some ⟨0, 0, false⟩
    ∧ arena_alloc ⟨0, 0, true⟩ mem0 8 8 1 FLAGS0
        = (if FLAGS0.mask &&& OOM_NULL.mask ≠ 0 then .oomNull ⟨0, 0, true⟩
           else if true then .oomJmp ⟨0, 0, true⟩ else .trap ⟨0, 0, true⟩)
    ∧ (ArenaOOM_establish ⟨0, 0, false⟩ mem0).2.2 = true :=
  ⟨c10_null_arena.1 8 (by norm_num),
   c10_null_arena.2.1 true mem0 8 8 1 FLAGS0 (by norm_num),
   (c10_null_arena.2.2 mem0).1⟩

/-- C3 counterexample: establish a checkpoint on a 48-byte arena (`ArenaOOM`
itself consumes 40 bytes for the jmpbuf, leaving the establishment frontier at
40), make one successful 4-byte allocation (frontier 44), then make a call
that fails and unwinds; control returns to the checkpoint with frontier 44,
not the establishment frontier 40 — `longjmp` restores control, not the
arena's `beg` field, so successful intermediate allocations are not rolled
back. -/
theorem c3_counterexample :
    (ArenaOOM_establish aC3 mem0).2.2 = false
    ∧ (ArenaOOM_establish aC3 mem0).1.beg = 40
    ∧ (runUntilOOM (ArenaOOM_establish aC3 mem0).1 (ArenaOOM_establish aC3 mem0).2.1
        reqsC3).2.2 = true
    ∧ (runUntilOOM (ArenaOOM_establish aC3 mem0).1 (ArenaOOM_establish aC3 mem0).2.1
        reqsC3).1.beg = 44
    ∧ (runUntilOOM (ArenaOOM_establish aC3 mem0).1 (ArenaOOM_establish aC3 mem0).2.1
        reqsC3).1.beg ≠ (ArenaOOM_establish aC3 mem0).1.beg := by
  refine ⟨rfl, rfl, rfl, rfl, by decide⟩

/-- C3 (amended): the OOM unwind itself does not move the frontier — an
`arena_alloc` that fails through `longjmp` leaves the arena exactly as it was
before that call — and the state at the moment control returns to the
checkpoint is the state left by the successful prefix of the allocations made
since establishment. Intermediate successful allocations are not rolled back
(they become unreachable and are reclaimed only on arena reset), so the
frontier at the checkpoint equals the establishment frontier plus the bytes
they consumed, not the establishment frontier itself. -/
theorem c3_unwind_keeps_prefix :
    (∀ (a : Arena) (m : Mem) (size align count : Int) (flags : ArenaFlag) (a2 : Arena),
        arena_alloc a m size align count flags = .oomJmp a2 → a2 = a)
    ∧ (∀ (reqs : List Req) (a : Arena) (m : Mem),
        (runUntilOOM a m reqs).2.2 = true →
        ∃ k ≤ reqs.length,
          (runUntilOOM a m (reqs.take k)).2.2 = false
          ∧ (runUntilOOM a m reqs).1 = (runUntilOOM a m (reqs.take k)).1) := by
  refine ⟨fun a m size align count flags a2 h => arena_alloc_oomJmp_eq h, ?_⟩
  intro reqs
  induction reqs with
  | nil =>
    intro a m h
    simp [runUntilOOM] at h
  | cons r rs ih =>
    intro a m h
    cases harena : arena_alloc a m r.size r.align r.count r.flags with
    | ok a2 m2 ret =>
      simp only [runUntilOOM, harena] at h
      obtain ⟨k, hk, hfalse, heq⟩ := ih a2 m2 h
      refine ⟨k + 1, by simp; omega, ?_, ?_⟩
      · simp only [List.take_succ_cons, runUntilOOM, harena]
        exact hfalse
      · simp only [List.take_succ_cons, runUntilOOM, harena]
        exact heq
    | oomNull a2 =>
      simp only [runUntilOOM, harena] at h
      obtain ⟨k, hk, hfalse, heq⟩ := ih a2 m h
      refine ⟨k + 1, by simp; omega, ?_, ?_⟩
      · simp only [List.take_succ_cons, runUntilOOM, harena]
        exact hfalse
      · simp only [List.take_succ_cons, runUntilOOM, harena]
        exact heq
    | oomJmp a2 =>
      refine ⟨0, by simp, rfl, ?_⟩
      simp only [List.take_zero, runUntilOOM, harena]
      exact arena_alloc_oomJmp_eq harena
    | trap a2 =>
      simp only [runUntilOOM, harena] at h
      exact absurd h (by simp)

/-- C3 witness: the amended statement applied to the concrete unwinding run
of the counterexample (establishment state: frontier 40, limit 48). -/
theorem c3_witness :
    ∃ k ≤ reqsC3.length,
      (runUntilOOM ⟨40, 48, true⟩ mem0 (reqsC3.take k)).2.2 = false
      ∧ (runUntilOOM ⟨40, 48, true⟩ mem0 reqsC3).1
          = (runUntilOOM ⟨40, 48, true⟩ mem0 (reqsC3.take k)).1 :=
  c3_unwind_keeps_prefix.2 reqsC3 ⟨40, 48, true⟩ mem0 rfl

lemma arena_alloc_beg_mono {arena : Arena} {m : Mem} {size align count : Int}
    {flags : ArenaFlag} (hsize : 0 ≤ size) :
    arena.beg ≤ (arenaOf (arena_alloc arena m size align count flags)).beg := by
  unfold arena_alloc
  split_ifs with h1 h2 h3 h4 h5 <;> simp only [arenaOf] <;> try exact le_refl _
  all_goals
    have hc : (0 : Int) ≤ count := by omega
    have hm : (0 : Int) ≤ size * count := mul_nonneg hsize hc
    omega

lemma runList_beg_mono (reqs : List Req) :
    ∀ (a : Arena) (m : Mem), (∀ r ∈ reqs, 0 ≤ r.size) → a.beg ≤ (runList a m reqs).1.beg := by
  induction reqs with
  | nil =>
    intro a m _
    simp [runList]
  | cons r rs ih =>
    intro a m hall
    have hr : (0 : Int) ≤ r.size := hall r (by simp)
    have hrest : ∀ x ∈ rs, (0 : Int) ≤ x.size := fun x hx => hall x (by simp [hx])
    have hstep := @arena_alloc_beg_mono a m r.size r.align r.count r.flags hr
    cases harena : arena_alloc a m r.size r.align r.count r.flags with
    | ok a2 m2 ret =>
      rw [harena] at hstep
      simp only [arenaOf] at hstep
      simp only [runList, harena]
      exact hstep.trans (ih a2 m2 hrest)
    | oomNull a2 =>
      rw [harena] at hstep
      simp only [arenaOf] at hstep
      simp only [runList, harena]
      exact hstep.trans (ih a2 m hrest)
    | oomJmp a2 =>
      rw [harena] at hstep
      simp only [arenaOf] at hstep
      simp only [runList, harena]
      exact hstep.trans (ih a2 m hrest)
    | trap a2 =>
      rw [harena] at hstep
      simp only [arenaOf] at hstep
      simp only [runList, harena]
      exact hstep.trans (ih a2 m hrest)

lemma alloc13_scratch_step {a : Arena13} {m : Mem} {size align count : Int} {flags : Nat}
    {pb : Nat} (hscr : a.parentBeg = some pb) (hsize : 0 ≤ size) (hcount : 0 ≤ count) :
    (arenaOf13 (arena_alloc13 a m size align count flags)).beg ≤ a.beg
    ∧ (arenaOf13 (arena_alloc13 a m size align count flags)).parentBeg = some pb := by
  simp only [arena_alloc13, hscr]
  have hm : (0 : Int) ≤ size * count := mul_nonneg hsize hcount
  by_cases hg : pb < a.beg
  · rw [if_pos hg]
    unfold alloc13_body
    rw [if_neg (by simp; omega)]
    split_ifs with h2 h3 <;>
      first
        | (unfold alloc13_oom
           split_ifs <;> refine ⟨?_, ?_⟩ <;> simp [arenaOf13, hscr] <;> omega)
        | (refine ⟨?_, ?_⟩ <;> simp [arenaOf13, hscr] <;> omega)
  · rw [if_neg hg]
    unfold alloc13_oom
    split_ifs <;> refine ⟨?_, ?_⟩ <;> simp [arenaOf13, hscr] <;> omega

lemma runList13_beg_mono (reqs : List Req) :
    ∀ (a : Arena13) (m : Mem) (pb : Nat), (∀ r ∈ reqs, 0 ≤ r.size ∧ 0 ≤ r.count) →
      a.parentBeg = some pb → (runList13 a m reqs).1.beg ≤ a.beg := by
  induction reqs with
  | nil =>
    intro a m pb _ _
    simp [runList13]
  | cons r rs ih =>
    intro a m pb hall hscr
    have hr := hall r (by simp)
    have hrest : ∀ x ∈ rs, (0 : Int) ≤ x.size ∧ (0 : Int) ≤ x.count :=
      fun x hx => hall x (by simp [hx])
    have hstep := @alloc13_scratch_step a m r.size r.align r.count r.flags.mask pb hscr hr.1 hr.2
    cases harena : arena_alloc13 a m r.size r.align r.count r.flags.mask with
    | ok a2 m2 ret =>
      rw [harena] at hstep
      simp only [arenaOf13] at hstep
      simp only [runList13, harena]
      exact (ih a2 m2 pb hrest hstep.2).trans hstep.1
    | null a2 =>
      rw [harena] at hstep
      simp only [arenaOf13] at hstep
      simp only [runList13, harena]
      exact (ih a2 m pb hrest hstep.2).trans hstep.1
    | jmp a2 =>
      rw [harena] at hstep
      simp only [arenaOf13] at hstep
      simp only [runList13, harena]
      exact (ih a2 m pb hrest hstep.2).trans hstep.1

/-- C8: across any sequence of `arena_alloc` calls without a reset the
frontier is monotonic in its growth direction — for the forward-growing arena
of src/include/arena.h, `beg` never decreases (each successful allocation
advances it by a nonnegative amount, each failed one leaves it unchanged);
for a part_013 scratch arena, which grows downward from the parent's end, the
frontier never moves back up. The `size` (and, for the scratch, `count`)
values are nonnegative, as they are in C where they come from `sizeof` and
asserted counts. -/
theorem c8_frontier_monotonic :
    (∀ (reqs : List Req) (a : Arena) (m : Mem),
        (∀ r ∈ reqs, 0 ≤ r.size) → a.beg ≤ (runList a m reqs).1.beg)
    ∧ (∀ (reqs : List Req) (a : Arena13) (m : Mem) (pb : Nat),
        (∀ r ∈ reqs, 0 ≤ r.size ∧ 0 ≤ r.count) → a.parentBeg = some pb →
        (runList13 a m reqs).1.beg ≤ a.beg) :=
  ⟨runList_beg_mono, fun reqs a m pb hall hscr => runList13_beg_mono reqs a m pb hall hscr⟩

/-- C8 witness: a concrete run over two requests (one succeeding, one
failing) on a forward arena and on a scratch arena. -/
theorem c8_witness :
    aC8.beg ≤ (runList aC8 mem0 reqsC8).1.beg
    ∧ (runList13 scrC8 mem0 reqsC8).1.beg ≤ scrC8.beg :=
  ⟨c8_frontier_monotonic.1 reqsC8 aC8 mem0 (by decide),
   c8_frontier_monotonic.2 reqsC8 scrC8 mem0 16 (by decide) rfl⟩

/-- C7 counterexample: on a scratch whose frontier 13 is above the parent
frontier 10, a zero-count allocation with alignment 8 succeeds (the OOM test
`0 > (-2)/8` is false) and retreats the frontier by the padding alone, to 8 —
strictly below the parent's frontier: the two frontiers can cross. -/
theorem c7_counterexample :
    isOK13 (arena_alloc13 scrC7 mem0 8 8 0 0) = true
    ∧ (arenaOf13 (arena_alloc13 scrC7 mem0 8 8 0 0)).beg = 8
    ∧ scrC7.parentBeg = some 10
    ∧ ¬(10 ≤ (arenaOf13 (arena_alloc13 scrC7 mem0 8 8 0 0)).beg) := by
  refine ⟨rfl, rfl, rfl, by decide⟩

/-- C7 (amended): for a scratch arena, a call whose frontier is still
strictly above the parent's live frontier first re-synchronizes the scratch
limit to that frontier (whatever the outcome); once the two frontiers have
met or crossed, the call goes straight to the OOM path with the arena
unchanged; and a successful allocation of at least one element never moves
the scratch frontier below the parent's frontier. (A zero-count allocation
can move it below by up to the alignment padding: see the counterexample.) -/
theorem c7_scratch_resync_and_no_cross
    (a : Arena13) (m : Mem) (size align count : Int) (flags : Nat) (pb : Nat)
    (hscr : a.parentBeg = some pb) (hsize : 0 < size) (hcount : 1 ≤ count) :
    (pb < a.beg → (arenaOf13 (arena_alloc13 a m size align count flags)).end_ = pb)
    ∧ (a.beg ≤ pb →
        isOK13 (arena_alloc13 a m size align count flags) = false
        ∧ arenaOf13 (arena_alloc13 a m size align count flags) = a)
    ∧ (∀ a2 m2 ret, arena_alloc13 a m size align count flags = .ok a2 m2 ret →
        pb ≤ a2.beg) := by
  refine ⟨?_, ?_, ?_⟩
  · intro hg
    simp only [arena_alloc13, hscr]
    rw [if_pos hg]
    unfold alloc13_body
    rw [if_neg (by simp; omega)]
    split_ifs with h2 h3 <;>
      first
        | (unfold alloc13_oom
           split_ifs <;> simp [arenaOf13])
        | simp [arenaOf13]
  · intro hle
    simp only [arena_alloc13, hscr]
    rw [if_neg (by omega)]
    unfold alloc13_oom
    split_ifs <;> simp [isOK13, arenaOf13]
  · intro a2 m2 ret h
    simp only [arena_alloc13, hscr] at h
    by_cases hg : pb < a.beg
    · rw [if_pos hg] at h
      unfold alloc13_body at h
      rw [if_neg (by simp; omega)] at h
      split_ifs at h with h2 h3
      · unfold alloc13_oom at h
        split_ifs at h <;> exact Alloc13Result.noConfusion h
      · injection h with ha
        have h2x : ¬(Int.tdiv (((a.beg : Int) - (pb : Int))
            - (((a.beg % UPTR) &&& (align - 1).toNat : Nat) : Int)) size < count) := h2
        have hq : count - 1 < Int.tdiv (((a.beg : Int) - (pb : Int))
            - (((a.beg % UPTR) &&& (align - 1).toNat : Nat) : Int)) size := by omega
        have hle2 := (lt_tdiv_iff hsize (by omega : (0 : Int) ≤ count - 1)).mp hq
        have hexp : size * (count - 1 + 1) = size * count := by ring
        rw [hexp] at hle2
        have hm : (0 : Int) ≤ size * count := mul_nonneg hsize.le (by omega)
        rw [← ha]
        show pb ≤ (((a.beg : Nat) : Int)
          - ((((a.beg % UPTR) &&& (align - 1).toNat : Nat) : Int) + size * count)).toNat
        omega
      · injection h with ha
        have h2x : ¬(Int.tdiv (((a.beg : Int) - (pb : Int))
            - (((a.beg % UPTR) &&& (align - 1).toNat : Nat) : Int)) size < count) := h2
        have hq : count - 1 < Int.tdiv (((a.beg : Int) - (pb : Int))
            - (((a.beg % UPTR) &&& (align - 1).toNat : Nat) : Int)) size := by omega
        have hle2 := (lt_tdiv_iff hsize (by omega : (0 : Int) ≤ count - 1)).mp hq
        have hexp : size * (count - 1 + 1) = size * count := by ring
        rw [hexp] at hle2
        have hm : (0 : Int) ≤ size * count := mul_nonneg hsize.le (by omega)
        rw [← ha]
        show pb ≤ (((a.beg : Nat) : Int)
          - ((((a.beg % UPTR) &&& (align - 1).toNat : Nat) : Int) + size * count)).toNat
        omega
    · rw [if_neg hg] at h
      unfold alloc13_oom at h
      split_ifs at h <;> exact Alloc13Result.noConfusion h

/-- C7 witness: a concrete scratch allocation (frontier 50, parent frontier
10, five one-byte elements) re-synchronizes the limit to 10 and lands the
frontier at 45, still above the parent's frontier. -/
theorem c7_witness :
    (arenaOf13 (arena_alloc13 scrC7w mem0 1 1 5 0)).end_ = 10
    ∧ (10 : Nat) ≤ 45 := by
  have h : arena_alloc13 scrC7w mem0 1 1 5 0
      = .ok ⟨45, 10, true, some 10⟩ (memsetF mem0 45 0 5) 45 := rfl
  exact ⟨(c7_scratch_resync_and_no_cross scrC7w mem0 1 1 5 0 10 rfl (by norm_num)
      (by norm_num)).1 (by decide),
    (c7_scratch_resync_and_no_cross scrC7w mem0 1 1 5 0 10 rfl (by norm_num)
      (by norm_num)).2.2 ⟨45, 10, true, some 10⟩ (memsetF mem0 45 0 5) 45 h⟩

/-- C9: the code disagrees with the claim — tokenizing "a,b,,c" (bytes
[97,44,98,44,44,99]) with the fixed separator "," ([44]) through the
`astr_split` iterator yields ["a", "b", ",c"], not ["a", "b", "", "c"]:
when `memmem` finds the separator at offset 0 of the current slice,
`_astr_split` returns the entire remaining slice as the token (`res !=
slice.data` fails), so the doubled separator produces no empty token and the
final token even contains a separator byte. -/
theorem c9_split_code_bug :
    astrSplitAll 7 strAC sepComma 0 = [[97], [98], [44, 99]]
    ∧ astrSplitAll 7 strAC sepComma 0 ≠ [[97], [98], [], [99]] := by
  constructor
  · rfl
  · decide

lemma slice_grow_inplace {s : SliceMeta} {size align : Int} {arena : Arena} {m : Mem}
    {s2 : SliceMeta} {a2 : Arena} {m2 : Mem}
    (hcap : 0 < s.cap) (hsize : 0 < size)
    (htip : (s.data : Int) + size * s.cap = (arena.beg : Int))
    (h : slice_grow s size align arena m = some (s2, a2, m2)) :
    s2.data = s.data ∧ s2.len = s.len ∧ s2.cap = s.cap + 16
    ∧ (a2.beg : Int) = (arena.beg : Int) + size * 16 ∧ a2.end_ = arena.end_ ∧ m2 = m := by
  unfold slice_grow at h
  have htipc : ((s.data : Int)).emod UPTR = (((arena.beg : Int) - size * s.cap)).emod UPTR := by
    have he : (arena.beg : Int) - size * s.cap = (s.data : Int) := by omega
    rw [he]
  rw [if_neg (by omega), if_pos htipc] at h
  cases halloc : arena_alloc arena m size 1 16 NO_INIT with
  | ok a3 m3 ret =>
    simp only [halloc, Option.some.injEq, Prod.mk.injEq] at h
    obtain ⟨hs2, ha2, hm2⟩ := h
    obtain ⟨-, -, -, hbeg, hend, -, hm3⟩ := arena_alloc_ok halloc
    have hm3m : m3 = m := by rw [hm3, if_pos (by decide)]
    have hpad : cPadding arena.beg 1 = 0 := cPadding_one arena.beg
    rw [hpad] at hbeg
    have h16 : (0 : Int) ≤ size * 16 := by positivity
    refine ⟨by rw [← hs2], by rw [← hs2], by rw [← hs2], ?_, by rw [← ha2, hend], ?_⟩
    · rw [← ha2, hbeg]
      omega
    · rw [← hm2, hm3m]
  | oomNull a3 =>
    simp only [halloc] at h
    exact Option.noConfusion h
  | oomJmp a3 =>
    simp only [halloc] at h
    exact Option.noConfusion h
  | trap a3 =>
    simp only [halloc] at h
    exact Option.noConfusion h

lemma push_tip_step {s : SliceMeta} {size align : Int} {arena : Arena} {m : Mem}
    {s2 : SliceMeta} {a2 : Arena} {m2 : Mem} {slot : Nat}
    (hsize : 0 < size) (hcap : 0 < s.cap) (hlen : 0 ≤ s.len)
    (hval : s.len = 0 → s.data = 0)
    (htip : (s.data : Int) + size * s.cap = (arena.beg : Int))
    (h : push s size align arena m = some (s2, a2, m2, slot)) :
    s2.data = s.data ∧ 0 < s2.cap ∧ 0 ≤ s2.len ∧ (s2.len = 0 → s2.data = 0)
    ∧ (s2.data : Int) + size * s2.cap = (a2.beg : Int) := by
  unfold push at h
  rw [if_neg (by
    push_neg
    exact ⟨by omega, by omega, hval⟩)] at h
  by_cases hgrow : s.cap ≤ s.len
  · rw [if_pos hgrow] at h
    cases hsg : slice_grow s size align arena m with
    | none =>
      simp only [hsg] at h
      exact Option.noConfusion h
    | some t =>
      obtain ⟨s3, a3, m3⟩ := t
      simp only [hsg, Option.some.injEq, Prod.mk.injEq] at h
      obtain ⟨hs2, ha2, hm2, -⟩ := h
      obtain ⟨hdata, hlen3, hcap3, hbeg3, -, -⟩ := slice_grow_inplace hcap hsize htip hsg
      have hexp : size * (s.cap + 16) = size * s.cap + size * 16 := by ring
      refine ⟨?_, ?_, ?_, ?_, ?_⟩
      · rw [← hs2]
        exact hdata
      · rw [← hs2]
        simp only []
        omega
      · rw [← hs2]
        simp only []
        omega
      · rw [← hs2]
        intro h0
        simp only [] at h0
        omega
      · rw [← hs2, ← ha2]
        simp only []
        rw [hdata, hcap3, hexp]
        omega
  · rw [if_neg hgrow] at h
    simp only [Option.some.injEq, Prod.mk.injEq] at h
    obtain ⟨hs2, ha2, hm2, -⟩ := h
    refine ⟨by rw [← hs2], by rw [← hs2]; simp only []; omega, by rw [← hs2]; simp only []; omega,
      ?_, ?_⟩
    · rw [← hs2]
      intro h0
      simp only [] at h0
      omega
    · rw [← hs2, ← ha2]
      simp only []
      exact htip

/-- C4: a growable slice whose storage is the most recent allocation in its
owning arena — its end address `data + size*cap` equals the arena frontier,
with positive capacity and a consistent header — keeps the same `data` base
address across any number `N` of `Push` operations through that arena with no
intervening allocation: growth happens in place, allocating only the
incremental bytes after the slice. -/
theorem c4_push_in_place (size align : Int) (hsize : 0 < size) :
    ∀ (N : Nat) (s : SliceMeta) (arena : Arena) (m : Mem)
      (s2 : SliceMeta) (a2 : Arena) (m2 : Mem),
      0 < s.cap → 0 ≤ s.len → (s.len = 0 → s.data = 0) →
      (s.data : Int) + size * s.cap = (arena.beg : Int) →
      pushN N s size align arena m = some (s2, a2, m2) →
      s2.data = s.data := by
  intro N
  induction N with
  | zero =>
    intro s arena m s2 a2 m2 _ _ _ _ h
    simp only [pushN, Option.some.injEq, Prod.mk.injEq] at h
    rw [← h.1]
  | succ n ih =>
    intro s arena m s2 a2 m2 hcap hlen hval htip h
    simp only [pushN] at h
    cases hp : push s size align arena m with
    | none =>
      simp only [hp] at h
      exact Option.noConfusion h
    | some t =>
      obtain ⟨s3, a3, m3, slot⟩ := t
      simp only [hp] at h
      obtain ⟨hdata, hcap3, hlen3, hval3, htip3⟩ := push_tip_step hsize hcap hlen hval htip hp
      rw [← hdata]
      exact ih s3 a3 m3 s2 a2 m2 hcap3 hlen3 hval3 htip3 h

/-- C4 witness: three pushes into a 4-slot slice at the tip (two fill it, the
third grows in place); the base address 96 never changes. -/
theorem c4_witness : SliceMeta.data ⟨96, 5, 20⟩ = sC4.data :=
  c4_push_in_place 1 1 (by norm_num) 3 sC4 aC4 mem0 ⟨96, 5, 20⟩ ⟨116, 200, true⟩ mem0
    (by decide) (by decide) (by decide) (by decide) rfl

lemma arena_alloc12_ok {arena : Arena} {m : Mem} {size align count : Int} {flags : ArenaFlag}
    {a2 : Arena} {m2 : Mem} {ret : Nat}
    (h : arena_alloc12 arena m size align count flags = .ok a2 m2 ret) :
    arena_alloc arena m size align count flags = .ok a2 m2 ret ∧ 0 < size ∧ 0 < count := by
  unfold arena_alloc12 at h
  split_ifs at h with h1
  all_goals
    first
      | exact AllocResult.noConfusion h
      | exact ⟨h, by omega, by omega⟩

lemma slice_grow_relocate {s : SliceMeta} {size align : Int} {arena : Arena} {m : Mem}
    {s2 : SliceMeta} {a2 : Arena} {m2 : Mem}
    (hcap : ¬s.cap = 0)
    (hnotip : ¬((s.data : Int)).emod UPTR = (((arena.beg : Int) - size * s.cap)).emod UPTR)
    (h : slice_grow s size align arena m = some (s2, a2, m2)) :
    s2.cap = s.cap + Int.tdiv s.cap 2
    ∧ s2.len = s.len
    ∧ s2.data = arena.beg + cPadding arena.beg align
    ∧ (∀ i, i < (size * s.len).toNat → m2 (s2.data + i) = m (s.data + i)) := by
  unfold slice_grow at h
  rw [if_neg hcap, if_neg hnotip] at h
  cases halloc : arena_alloc arena m size align (s.cap + Int.tdiv s.cap 2) NO_INIT with
  | ok a3 m3 ret =>
    simp only [halloc, Option.some.injEq, Prod.mk.injEq] at h
    obtain ⟨hs2, ha2, hm2⟩ := h
    obtain ⟨-, -, hret, -, -, -, hm3⟩ := arena_alloc_ok halloc
    have hm3m : m3 = m := by rw [hm3, if_pos (by decide)]
    refine ⟨by rw [← hs2], by rw [← hs2], by rw [← hs2]; simp only []; exact hret, ?_⟩
    intro i hi
    rw [← hm2, ← hs2]
    simp only []
    rw [hm3m]
    exact memmoveF_in m ret s.data (size * s.len).toNat i hi
  | oomNull a3 =>
    simp only [halloc] at h
    exact Option.noConfusion h
  | oomJmp a3 =>
    simp only [halloc] at h
    exact Option.noConfusion h
  | trap a3 =>
    simp only [halloc] at h
    exact Option.noConfusion h

lemma slice_grow12_relocate {s : SliceMeta} {size align : Int} {arena : Arena} {m : Mem}
    {s2 : SliceMeta} {a2 : Arena} {m2 : Mem}
    (hcap : ¬s.cap = 0)
    (hnotip : ¬((s.data : Int)).emod UPTR = (((arena.beg : Int) - size * s.cap)).emod UPTR)
    (h : slice_grow12 s size align arena m = some (s2, a2, m2)) :
    s2.cap = s.cap + max (Int.tdiv s.cap 2) 16
    ∧ s2.len = s.len
    ∧ s2.data = arena.beg + cPadding arena.beg align
    ∧ (∀ i, i < (size * s.len).toNat → m2 (s2.data + i) = m (s.data + i)) := by
  unfold slice_grow12 at h
  rw [if_neg hcap, if_neg hnotip] at h
  cases halloc12 : arena_alloc12 arena m size align (s.cap + max (Int.tdiv s.cap 2) 16)
      NO_INIT with
  | ok a3 m3 ret =>
    simp only [halloc12, Option.some.injEq, Prod.mk.injEq] at h
    obtain ⟨hs2, ha2, hm2⟩ := h
    obtain ⟨halloc, -, -⟩ := arena_alloc12_ok halloc12
    obtain ⟨-, -, hret, -, -, -, hm3⟩ := arena_alloc_ok halloc
    have hm3m : m3 = m := by rw [hm3, if_pos (by decide)]
    refine ⟨by rw [← hs2], by rw [← hs2], by rw [← hs2]; simp only []; exact hret, ?_⟩
    intro i hi
    rw [← hm2, ← hs2]
    simp only []
    rw [hm3m]
    exact memmoveF_in m ret s.data (size * s.len).toNat i hi
  | oomNull a3 =>
    simp only [halloc12] at h
    exact Option.noConfusion h
  | oomJmp a3 =>
    simp only [halloc12] at h
    exact Option.noConfusion h
  | trap a3 =>
    simp only [halloc12] at h
    exact Option.noConfusion h

/-- C5 counterexample: a 16-element, 1-byte-element slice not at the arena
tip; src/include/arena.h's `slice_grow` produces capacity 24 = 16 + 16/2,
whereas the claimed formula `max(cap*1.5, cap+minimum_growth)` gives 32. -/
theorem c5_counterexample :
    (slice_grow sC5 1 1 aC5 mem0).map (fun t => t.1.cap) = some 24
    ∧ ¬((24 : Int) = 16 + max (Int.tdiv 16 2) 16) := by
  constructor
  · rfl
  · decide

/-- C5 (amended): when growth is triggered for a slice with nonzero capacity
whose storage is not at the arena tip, `slice_grow` allocates fresh storage,
moves the existing `length` elements overlap-safely so the content at byte
offsets `[0, size*len)` is identical before and after the relocation, and
rebinds `data` to the fresh allocation. The new capacity is
`cap + max(cap/2, 16)` - that is, `max(cap*1.5, cap + minimum_growth)` - in
the src/unnamed/part_012 variant, but only `cap + cap/2` in
src/include/arena.h, which does not take the max with the fixed minimum
growth. -/
theorem c5_relocation
    (s : SliceMeta) (size align : Int) (arena : Arena) (m : Mem)
    (hcap : ¬s.cap = 0)
    (hnotip : ¬((s.data : Int)).emod UPTR = (((arena.beg : Int) - size * s.cap)).emod UPTR) :
    (∀ s2 a2 m2, slice_grow12 s size align arena m = some (s2, a2, m2) →
        s2.cap = s.cap + max (Int.tdiv s.cap 2) 16
        ∧ s2.len = s.len
        ∧ s2.data = arena.beg + cPadding arena.beg align
        ∧ (∀ i, i < (size * s.len).toNat → m2 (s2.data + i) = m (s.data + i)))
    ∧ (∀ s2 a2 m2, slice_grow s size align arena m = some (s2, a2, m2) →
        s2.cap = s.cap + Int.tdiv s.cap 2
        ∧ s2.len = s.len
        ∧ s2.data = arena.beg + cPadding arena.beg align
        ∧ (∀ i, i < (size * s.len).toNat → m2 (s2.data + i) = m (s.data + i))) :=
  ⟨fun s2 a2 m2 h => slice_grow12_relocate hcap hnotip h,
   fun s2 a2 m2 h => slice_grow_relocate hcap hnotip h⟩

/-- C5 witness: the amended statement at the concrete not-at-tip slice of the
counterexample; the part_012 variant reaches capacity 32, the
src/include/arena.h variant capacity 24. -/
theorem c5_witness :
    SliceMeta.cap ⟨200, 16, 32⟩ = sC5.cap + max (Int.tdiv sC5.cap 2) 16
    ∧ SliceMeta.cap ⟨200, 16, 24⟩ = sC5.cap + Int.tdiv sC5.cap 2 :=
  ⟨((c5_relocation sC5 1 1 aC5 mem0 (by decide) (by decide)).1 ⟨200, 16, 32⟩ ⟨232, 300, true⟩
      (memmoveF mem0 200 100 16) rfl).1,
   ((c5_relocation sC5 1 1 aC5 mem0 (by decide) (by decide)).2 ⟨200, 16, 24⟩ ⟨224, 300, true⟩
      (memmoveF mem0 200 100 16) rfl).1⟩

lemma astrclone_spec {arena : Arena} {m : Mem} {s : Astr} {r : Astr} {a2 : Arena} {m2 : Mem}
    (hlen : 0 ≤ s.len)
    (h : astrclone arena m s = some (r, a2, m2)) :
    r.len = s.len ∧ a2.end_ = arena.end_
    ∧ ((r = s ∧ a2 = arena ∧ m2 = m ∧ (s.len = 0 ∨ (s.data : Int) + s.len = (arena.beg : Int)))
       ∨ (0 < s.len ∧ ¬((s.data : Int) + s.len = (arena.beg : Int))
          ∧ r.data = arena.beg ∧ a2.beg = arena.beg + s.len.toNat
          ∧ ((a2.beg : Int)) < (arena.end_ : Int)
          ∧ m2 = memmoveF m arena.beg s.data s.len.toNat)) := by
  unfold astrclone at h
  by_cases hc : s.len = 0 ∨ (s.data : Int) + s.len = (arena.beg : Int)
  · rw [if_pos hc] at h
    simp only [Option.some.injEq, Prod.mk.injEq] at h
    obtain ⟨h1, h2, h3⟩ := h
    exact ⟨by rw [← h1], by rw [← h2], Or.inl ⟨h1.symm, h2.symm, h3.symm, hc⟩⟩
  · rw [if_neg hc] at h
    push_neg at hc
    have hsl : 0 < s.len := lt_of_le_of_ne hlen (Ne.symm hc.1)
    cases halloc : arena_alloc arena m 1 1 s.len NO_INIT with
    | ok a3 m3 ret =>
      simp only [halloc, Option.some.injEq, Prod.mk.injEq] at h
      obtain ⟨hr, ha2, hm2⟩ := h
      obtain ⟨-, hfail, hret, hbeg, hend, -, hm3⟩ := arena_alloc_ok halloc
      have hm3m : m3 = m := by rw [hm3, if_pos (by decide)]
      have hpad : cPadding arena.beg 1 = 0 := cPadding_one arena.beg
      rw [hpad] at hbeg hret hfail
      have hretbeg : ret = arena.beg := by omega
      have hlt : s.len < Int.tdiv (((arena.end_ : Int) - arena.beg) - ((0 : Nat) : Int)) 1 :=
        not_le.mp hfail
      have hb := (lt_tdiv_iff (by norm_num) hlen).mp hlt
      have ha2beg : a2.beg = arena.beg + s.len.toNat := by
        rw [← ha2]
        omega
      refine ⟨by rw [← hr], by rw [← ha2, hend], Or.inr ⟨hsl, hc.2, ?_, ha2beg, ?_, ?_⟩⟩
      · rw [← hr]
        simp only []
        exact hretbeg
      · rw [ha2beg]
        push_cast
        omega
      · rw [← hm2, hm3m, hretbeg]
    | oomNull a3 =>
      simp only [halloc] at h
      exact Option.noConfusion h
    | oomJmp a3 =>
      simp only [halloc] at h
      exact Option.noConfusion h
    | trap a3 =>
      simp only [halloc] at h
      exact Option.noConfusion h

lemma astrcmp_of_content {m : Mem} {x y : Astr} (hx : 0 ≤ x.len) (hy : 0 ≤ y.len)
    (hc : contA m x = contA m y) : astrcmp m x y = true := by
  have hlens : x.len.toNat = y.len.toNat := by
    have := congrArg List.length hc
    simpa [contA, contentN] using this
  have hlen : x.len = y.len := by omega
  unfold astrcmp
  rw [if_neg (by simp [hlen])]
  by_cases h0 : x.len = 0
  · simp [h0]
  · have hc2 : contentN m x.data x.len.toNat = contentN m y.data x.len.toNat := by
      have hcu := hc
      unfold contA at hcu
      rw [← hlens] at hcu
      exact hcu
    have hpw := contentN_pointwise hc2
    simp only [Bool.or_eq_true, decide_eq_true_eq, beq_iff_eq]
    right
    intro i hi
    exact hpw i hi

lemma astrconcat_append_spec {arena : Arena} {m : Mem} {B : Astr} {A : Astr}
    {ret0 : Astr} {a1 : Arena} {m1 : Mem} {r : Astr} {a2 : Arena} {m2 : Mem}
    (hB : 0 ≤ B.len)
    (hend1 : a1.end_ = arena.end_)
    (hbeg1 : arena.beg ≤ a1.beg)
    (htip1 : (ret0.data : Int) + ret0.len = (a1.beg : Int))
    (hrlen0 : ret0.len = A.len) (hr0pos : 0 < ret0.len)
    (hcont1 : contentN m1 ret0.data A.len.toNat = contA m A)
    (hagree : ∀ i, i < B.len.toNat → m1 (B.data + i) = m (B.data + i))
    (hBout : (B.data : Int) + B.len ≤ (arena.beg : Int) ∨ (arena.end_ : Int) ≤ (B.data : Int))
    (hnotipB : 0 < B.len → ¬((B.data : Int) + B.len = (a1.beg : Int)))
    (h : astrconcat_append ret0 a1 m1 B = some (r, a2, m2)) :
    r.len = A.len + B.len
    ∧ contA m2 r = contA m A ++ contA m B
    ∧ (∀ i, i < B.len.toNat → m2 (B.data + i) = m (B.data + i)) := by
  unfold astrconcat_append at h
  cases hcl2 : astrclone a1 m1 B with
  | none =>
    simp only [hcl2] at h
    exact Option.noConfusion h
  | some t =>
    obtain ⟨t2, a3, m3⟩ := t
    simp only [hcl2, Option.some.injEq, Prod.mk.injEq] at h
    obtain ⟨hr, ha2, hm2⟩ := h
    obtain ⟨ht2len, hend3, hcase⟩ := astrclone_spec hB hcl2
    rcases hcase with ⟨ht2, ha3, hm3, hc0⟩ | ⟨hBpos, hBnt, ht2d, hab3, hlt3, hm3⟩
    · have hB0 : B.len = 0 := by
        rcases hc0 with h0 | h0
        · exact h0
        · by_contra hne
          have hBpos2 : 0 < B.len := lt_of_le_of_ne hB (Ne.symm hne)
          exact (hnotipB hBpos2) h0
      refine ⟨?_, ?_, ?_⟩
      · rw [← hr]
        simp only []
        omega
      · have hBnil : contA m B = [] := by
          simp [contA, hB0, contentN]
        rw [hBnil, List.append_nil, ← hr, ← hm2, hm3]
        unfold contA
        simp only []
        have hn : (ret0.len + t2.len).toNat = A.len.toNat := by omega
        rw [hn]
        exact hcont1
      · intro i hi
        rw [← hm2, hm3]
        exact hagree i hi
    · have hdstN : ret0.data + A.len.toNat = a1.beg := by omega
      rw [hend1] at hlt3
      refine ⟨?_, ?_, ?_⟩
      · rw [← hr]
        simp only []
        omega
      · rw [← hr, ← hm2, hm3]
        unfold contA
        simp only []
        have hsplitn : (ret0.len + t2.len).toNat = A.len.toNat + B.len.toNat := by omega
        rw [hsplitn, contentN_split]
        congr 1
        · have hstep : contentN (memmoveF m1 a1.beg B.data B.len.toNat) ret0.data A.len.toNat
              = contentN m1 ret0.data A.len.toNat := by
            apply contentN_congr
            intro i hi
            apply memmoveF_out
            left
            omega
          rw [hstep]
          exact hcont1
        · rw [hdstN]
          have hmv := contentN_memmove m1 a1.beg B.data B.len.toNat
          rw [hmv]
          exact contentN_congr B.len.toNat hagree
      · intro i hi
        rw [← hm2, hm3]
        have hout : memmoveF m1 a1.beg B.data B.len.toNat (B.data + i) = m1 (B.data + i) := by
          apply memmoveF_out
          rcases hBout with hb | hb
          · left
            omega
          · right
            omega
        rw [hout]
        exact hagree i hi

lemma astrconcat_content {arena : Arena} {m : Mem} {A B : Astr}
    {r : Astr} {a2 : Arena} {m2 : Mem}
    (hA : 0 ≤ A.len) (hB : 0 ≤ B.len)
    (hBout : (B.data : Int) + B.len ≤ (arena.beg : Int) ∨ (arena.end_ : Int) ≤ (B.data : Int))
    (hdisj : ∀ x : Int, ¬((A.data : Int) ≤ x ∧ x < (A.data : Int) + A.len
        ∧ (B.data : Int) ≤ x ∧ x < (B.data : Int) + B.len))
    (h : astrconcat arena m A B = some (r, a2, m2)) :
    r.len = A.len + B.len
    ∧ contA m2 r = contA m A ++ contA m B
    ∧ (∀ i, i < B.len.toNat → m2 (B.data + i) = m (B.data + i)) := by
  unfold astrconcat at h
  by_cases hA0 : A.len = 0
  · rw [if_pos hA0] at h
    have hAnil : contA m A = [] := by simp [contA, hA0, contentN]
    by_cases htip : B.len ≠ 0 ∧ (B.data : Int) + B.len = (arena.beg : Int)
    · rw [if_pos htip] at h
      simp only [Option.some.injEq, Prod.mk.injEq] at h
      obtain ⟨h1, h2, h3⟩ := h
      refine ⟨by rw [← h1]; omega, ?_, ?_⟩
      · rw [← h1, ← h3, hAnil]
        rfl
      · intro i hi
        rw [← h3]
    · rw [if_neg htip] at h
      obtain ⟨hrlen, hend2, hcase⟩ := astrclone_spec hB h
      rcases hcase with ⟨hr, ha, hm, -⟩ | ⟨hpos, hnt, hrd, hab, hlt2, hm⟩
      · refine ⟨by omega, ?_, ?_⟩
        · rw [hm, hr, hAnil]
          rfl
        · intro i hi
          rw [hm]
      · refine ⟨by omega, ?_, ?_⟩
        · rw [hAnil, List.nil_append, hm]
          unfold contA
          rw [hrd, hrlen]
          exact contentN_memmove m arena.beg B.data B.len.toNat
        · intro i hi
          rw [hm]
          apply memmoveF_out
          rcases hBout with hb | hb
          · left
            omega
          · right
            omega
  · rw [if_neg hA0] at h
    have hApos : 0 < A.len := lt_of_le_of_ne hA (Ne.symm hA0)
    by_cases hht : (A.data : Int) + A.len ≠ (arena.beg : Int)
    · rw [if_pos hht] at h
      cases hcl : astrclone arena m A with
      | none =>
        simp only [hcl] at h
        exact Option.noConfusion h
      | some t =>
        obtain ⟨ret0, a1, m1⟩ := t
        simp only [hcl] at h
        obtain ⟨hrlen0, hend1, hcase⟩ := astrclone_spec hA hcl
        rcases hcase with ⟨-, -, -, hc0⟩ | ⟨-, -, hrd0, hab1, hlt1, hm1⟩
        · rcases hc0 with h0 | h0
          · exact absurd h0 hA0
          · exact absurd h0 hht
        · have hbeg1 : arena.beg ≤ a1.beg := by omega
          have htip1 : (ret0.data : Int) + ret0.len = (a1.beg : Int) := by
            rw [hrd0, hrlen0, hab1]
            push_cast
            omega
          have hr0pos : 0 < ret0.len := by omega
          have hcont1 : contentN m1 ret0.data A.len.toNat = contA m A := by
            rw [hm1, hrd0]
            exact contentN_memmove m arena.beg A.data A.len.toNat
          have hagree : ∀ i, i < B.len.toNat → m1 (B.data + i) = m (B.data + i) := by
            intro i hi
            rw [hm1]
            apply memmoveF_out
            rcases hBout with hb | hb
            · left
              omega
            · right
              omega
          have hnotipB : 0 < B.len → ¬((B.data : Int) + B.len = (a1.beg : Int)) := by
            intro hBpos hcontra
            rcases hBout with hb | hb
            · omega
            · omega
          exact astrconcat_append_spec hB hend1 hbeg1 htip1 hrlen0 hr0pos hcont1 hagree
            hBout hnotipB h
    · rw [if_neg hht] at h
      push_neg at hht
      have hcont1 : contentN m A.data A.len.toNat = contA m A := rfl
      have hagree : ∀ i, i < B.len.toNat → m (B.data + i) = m (B.data + i) := fun i hi => rfl
      have hnotipB : 0 < B.len → ¬((B.data : Int) + B.len = (arena.beg : Int)) := by
        intro hBpos hcontra
        apply hdisj ((arena.beg : Int) - 1)
        refine ⟨by omega, by omega, by omega, by omega⟩
      exact astrconcat_append_spec hB rfl (le_refl _) hht rfl hApos hcont1 hagree
        hBout hnotipB h

/-- C6 counterexample: with the string "ab" stored at `[18, 20)` ending
exactly at the frontier 20, `astrconcat(arena, s, s)` with the same string as
head and tail returns a 4-byte view whose content is `[1, 2, 0, 0]` — the
bytes past the frontier — rather than the concatenation `[1, 2, 1, 2]`: when
head and tail both end at the tip, the tail clone is skipped and the result
covers unwritten memory. The claim as stated over all strings is false. -/
theorem c6_counterexample :
    (astrconcat aC6 mC6 sAB sAB).map (fun t => contA t.2.2 t.1) = some [1, 2, 0, 0]
    ∧ contA mC6 sAB ++ contA mC6 sAB = [1, 2, 1, 2]
    ∧ ([1, 2, 0, 0] : List Nat) ≠ [1, 2, 1, 2] := by
  refine ⟨rfl, rfl, by decide⟩

/-- C6 (amended): for strings A and B with nonnegative lengths and disjoint
byte ranges, where B's range is also disjoint from the arena's free region
`[beg, end)`, a successful `astrconcat(arena, A, B)` returns a string whose
content is A's content followed by B's content — hence it compares equal
(`astrcmp`) to any directly formatted string with that content — and the
operation never mutates B's original bytes. (Without the disjointness the
property fails when A and B both end exactly at the frontier: see the
counterexample.) -/
theorem c6_astrconcat_round_trip
    (arena : Arena) (m : Mem) (A B : Astr) (r : Astr) (a2 : Arena) (m2 : Mem)
    (hA : 0 ≤ A.len) (hB : 0 ≤ B.len)
    (hBout : (B.data : Int) + B.len ≤ (arena.beg : Int) ∨ (arena.end_ : Int) ≤ (B.data : Int))
    (hdisj : ∀ x : Int, ¬((A.data : Int) ≤ x ∧ x < (A.data : Int) + A.len
        ∧ (B.data : Int) ≤ x ∧ x < (B.data : Int) + B.len))
    (h : astrconcat arena m A B = some (r, a2, m2)) :
    r.len = A.len + B.len
    ∧ contA m2 r = contA m A ++ contA m B
    ∧ (∀ i, i < B.len.toNat → m2 (B.data + i) = m (B.data + i))
    ∧ (∀ C : Astr, 0 ≤ C.len → contA m2 C = contA m A ++ contA m B →
        astrcmp m2 r C = true) := by
  obtain ⟨h1, h2, h3⟩ := astrconcat_content hA hB hBout hdisj h
  exact ⟨h1, h2, h3, fun C hC hcc => astrcmp_of_content (by omega) hC (h2.trans hcc.symm)⟩

/-- C6 witness: concatenating A = [1, 2] at `[10, 12)` and B = [3] at
`[14, 15)` over an arena with frontier 16 produces a string with content
`[1, 2, 3]`, with B's bytes untouched. -/
theorem c6_witness :
    (astrconcat aC6w mC6w sAw sBw).map (fun t => contA t.2.2 t.1)
      = some (contA mC6w sAw ++ contA mC6w sBw) := by
  obtain ⟨rw2, aw2, mw2, hw⟩ :
      ∃ rx ax mx, astrconcat aC6w mC6w sAw sBw = some (rx, ax, mx) := ⟨_, _, _, rfl⟩
  rw [hw]
  have hc := c6_astrconcat_round_trip aC6w mC6w sAw sBw rw2 aw2 mw2
    (by decide) (by decide) (by decide) (by intro x; simp only [sAw, sBw]; omega) hw
  exact congrArg some hc.2.1

end ArenaSpec
